import Mathlib

/-!
Verification of the backtesting engines in `app.py` of the BACKTESTER
repository: `backtest_stock` and `backtest_futures`.  Prices are embedded as
rationals (the spec speaks of reals), a missing (NaN) price as `none`, and the
Python `int` lot count as `ℤ`.  Python's `round(x, n)` (round half to even) is
embedded as `rq2` / `rq4`.  The final `pd.Series(equity, index=prices.index)`
raises a `ValueError` when the lengths disagree; this is embedded by the
`Except` result of `backtest_stock` / `backtest_futures`.
-/

namespace Backtester

/-- Round a rational to the nearest integer, ties to even
(Python's `round` on a non-negative-exponent value). -/
def rhe (q : ℚ) : ℤ :=
  let f := ⌊q⌋
  let r := q - (f : ℚ)
  if r < 1 / 2 then f
  else if 1 / 2 < r then f + 1
  else if f % 2 = 0 then f else f + 1

/-- Python `round(x, 2)`. -/
def rq2 (q : ℚ) : ℚ := (rhe (q * 100) : ℚ) / 100

/-- Python `round(x, 4)`. -/
def rq4 (q : ℚ) : ℚ := (rhe (q * 10000) : ℚ) / 10000

/-- The `action` field of a trade record. -/
inductive Action where
  | buyInit
  | buyAdd
  | sellAll
deriving DecidableEq, Repr

/-- A trade record of the stock engine: the dict appended to `trades` in
`backtest_stock` (`cost` is present on BUY rows, `pnl` on SELL rows). -/
structure Trade where
  date : ℕ
  action : Action
  price : ℚ
  shares : ℚ
  cost : Option ℚ
  pnl : Option ℚ
deriving DecidableEq, Repr

/-- A trade record of the futures engine: the dict appended to `trades` in
`backtest_futures` (the `lots` field is the Python `int` `lots`). -/
structure FTrade where
  date : ℕ
  action : Action
  price : ℚ
  lots : ℤ
  cost : Option ℚ
  pnl : Option ℚ
deriving DecidableEq, Repr

/-- The mutable loop state of `backtest_stock`: `realized_pnl`,
`position_cost`, `position_shares`, `last_buy_price`, `in_position`. -/
structure StockState where
  realized : ℚ
  cost : ℚ
  shares : ℚ
  lastBuy : Option ℚ
  inPos : Bool
deriving DecidableEq, Repr

/-- State at the top of `backtest_stock`, before the loop. -/
def initStock : StockState :=
  { realized := 0, cost := 0, shares := 0, lastBuy := none, inPos := false }

/-- The body of the `for` loop of `backtest_stock` for a bar whose price is
present and positive, without the trailing equity append: the `if not
in_position / else` block.  Returns the updated state and the trades appended
on this bar.  (`last_buy_price` is `some _` whenever `in_position` holds on
every reachable state; the unreachable `none` case is read as `0`.) -/
def stockStep (initInr addInr dropPct profitPct : ℚ) (s : StockState)
    (d : ℕ) (p : ℚ) : StockState × List Trade :=
  if s.inPos = false then
    let shares := initInr / p
    ({ realized := s.realized, cost := initInr, shares := shares,
       lastBuy := some p, inPos := true },
     [{ date := d, action := Action.buyInit, price := rq2 p,
        shares := rq4 shares, cost := some initInr, pnl := none }])
  else
    let lb := s.lastBuy.getD 0
    let drop := (lb - p) / lb * 100
    let addShares := addInr / p
    let s1 : StockState :=
      if dropPct ≤ drop then
        { s with
            shares := s.shares + addShares,
            cost := s.cost + addInr,
            lastBuy := some p }
      else s
    let t1 : List Trade :=
      if dropPct ≤ drop then
        [{ date := d, action := Action.buyAdd, price := rq2 p,
           shares := rq4 addShares, cost := some addInr, pnl := none }]
      else []
    if 0 < s1.shares then
      let avg := s1.cost / s1.shares
      if avg * (1 + profitPct / 100) ≤ p then
        let proceeds := p * s1.shares
        let pnl := proceeds - s1.cost
        ({ realized := s1.realized + pnl, cost := 0, shares := 0,
           lastBuy := none, inPos := false },
         t1 ++ [{ date := d, action := Action.sellAll, price := rq2 p,
                  shares := rq4 s1.shares, cost := none,
                  pnl := some (rq2 pnl) }])
      else (s1, t1)
    else (s1, t1)

/-- One full iteration of the `for` loop of `backtest_stock`: skip the bar
when the price is missing or ≤ 0 (the `continue`, which also skips the
equity append), otherwise run `stockStep` and append one equity value
`realized_pnl + unrealized`. -/
def stockBar (initInr addInr dropPct profitPct : ℚ) (s : StockState)
    (bar : ℕ × Option ℚ) : StockState × List Trade × List ℚ :=
  match bar.2 with
  | none => (s, [], [])
  | some p =>
    if p ≤ 0 then (s, [], [])
    else
      let r := stockStep initInr addInr dropPct profitPct s bar.1 p
      let unrealized := if r.1.inPos then r.1.shares * p else 0
      (r.1, r.2, [r.1.realized + unrealized])

/-- The whole loop of `backtest_stock` from an arbitrary state: threads the
state through the bars, concatenating the trades and equity values. -/
def stockRun (initInr addInr dropPct profitPct : ℚ) (s : StockState) :
    List (ℕ × Option ℚ) → StockState × List Trade × List ℚ
  | [] => (s, [], [])
  | bar :: rest =>
    let r1 := stockBar initInr addInr dropPct profitPct s bar
    let r2 := stockRun initInr addInr dropPct profitPct r1.1 rest
    (r2.1, r1.2.1 ++ r2.2.1, r1.2.2 ++ r2.2.2)

/-- `backtest_stock(prices, initial_inr, add_inr, drop_pct, profit_pct)`:
runs the loop from the empty state and builds the outputs.
`pd.Series(equity, index=prices.index)` raises a `ValueError` when the
equity list is shorter than the index, which the `Except.error` case
embeds; otherwise equity value `i` is carried at the `i`-th input date. -/
def backtest_stock (prices : List (ℕ × Option ℚ))
    (initInr addInr dropPct profitPct : ℚ) :
    Except String (List Trade × List (ℕ × ℚ)) :=
  let r := stockRun initInr addInr dropPct profitPct initStock prices
  if r.2.2.length = prices.length then
    Except.ok (r.2.1, (prices.map Prod.fst).zip r.2.2)
  else
    Except.error "Length of values does not match length of index"

/-- The mutable loop state of `backtest_futures`: `realized_pnl`,
`total_cost`, `lots` (a Python `int`, hence `ℤ`), `last_buy_price`,
`in_position`. -/
structure FutState where
  realized : ℚ
  cost : ℚ
  lots : ℤ
  lastBuy : Option ℚ
  inPos : Bool
deriving DecidableEq, Repr

/-- State at the top of `backtest_futures`, before the loop. -/
def initFut : FutState :=
  { realized := 0, cost := 0, lots := 0, lastBuy := none, inPos := false }

/-- The body of the `for` loop of `backtest_futures` for a bar whose price is
present and positive, without the trailing equity append. -/
def futStep (initialLots : ℤ) (addLotDrop profitPct lotValue : ℚ)
    (s : FutState) (d : ℕ) (p : ℚ) : FutState × List FTrade :=
  if s.inPos = false then
    let cost := (initialLots : ℚ) * p * lotValue
    ({ realized := s.realized, cost := cost, lots := initialLots,
       lastBuy := some p, inPos := true },
     [{ date := d, action := Action.buyInit, price := rq2 p,
        lots := initialLots, cost := some (rq2 cost), pnl := none }])
  else
    let lb := s.lastBuy.getD 0
    let drop := (lb - p) / lb * 100
    let addCost := p * lotValue
    let s1 : FutState :=
      if addLotDrop ≤ drop then
        { s with
            lots := s.lots + 1,
            cost := s.cost + addCost,
            lastBuy := some p }
      else s
    let t1 : List FTrade :=
      if addLotDrop ≤ drop then
        [{ date := d, action := Action.buyAdd, price := rq2 p,
           lots := s.lots + 1, cost := some (rq2 addCost), pnl := none }]
      else []
    if 0 < s1.lots then
      let avg := s1.cost / ((s1.lots : ℚ) * lotValue)
      if avg * (1 + profitPct / 100) ≤ p then
        let proceeds := (s1.lots : ℚ) * p * lotValue
        let pnl := proceeds - s1.cost
        ({ realized := s1.realized + pnl, cost := 0, lots := 0,
           lastBuy := none, inPos := false },
         t1 ++ [{ date := d, action := Action.sellAll, price := rq2 p,
                  lots := s1.lots, cost := none, pnl := some (rq2 pnl) }])
      else (s1, t1)
    else (s1, t1)

/-- One full iteration of the `for` loop of `backtest_futures`: skip the bar
(and its equity append) on a missing or non-positive price, otherwise run
`futStep` and append one equity value `realized_pnl + unrealized`. -/
def futBar (initialLots : ℤ) (addLotDrop profitPct lotValue : ℚ)
    (s : FutState) (bar : ℕ × Option ℚ) : FutState × List FTrade × List ℚ :=
  match bar.2 with
  | none => (s, [], [])
  | some p =>
    if p ≤ 0 then (s, [], [])
    else
      let r := futStep initialLots addLotDrop profitPct lotValue s bar.1 p
      let unrealized := if r.1.inPos then (r.1.lots : ℚ) * p * lotValue else 0
      (r.1, r.2, [r.1.realized + unrealized])

/-- The whole loop of `backtest_futures` from an arbitrary state. -/
def futRun (initialLots : ℤ) (addLotDrop profitPct lotValue : ℚ)
    (s : FutState) : List (ℕ × Option ℚ) → FutState × List FTrade × List ℚ
  | [] => (s, [], [])
  | bar :: rest =>
    let r1 := futBar initialLots addLotDrop profitPct lotValue s bar
    let r2 := futRun initialLots addLotDrop profitPct lotValue r1.1 rest
    (r2.1, r1.2.1 ++ r2.2.1, r1.2.2 ++ r2.2.2)

/-- `backtest_futures(prices, initial_lots, add_lot_every_drop, profit_pct,
lot_value)`, with the same `pd.Series` length behaviour as the stock case. -/
def backtest_futures (prices : List (ℕ × Option ℚ)) (initialLots : ℤ)
    (addLotDrop profitPct lotValue : ℚ) :
    Except String (List FTrade × List (ℕ × ℚ)) :=
  let r := futRun initialLots addLotDrop profitPct lotValue initFut prices
  if r.2.2.length = prices.length then
    Except.ok (r.2.1, (prices.map Prod.fst).zip r.2.2)
  else
    Except.error "Length of values does not match length of index"

/-- The price series of the spec's stock-mode scenario:
`[100, 100, 97, 97, 102]`. -/
def c5bars : List (ℕ × Option ℚ) :=
  [(0, some 100), (1, some 100), (2, some 97), (3, some 97), (4, some 102)]

/-- The drawdown percentage of the current price relative to the last buy
price: `((last_buy_price - price) / last_buy_price) * 100`. -/
def drawdown (lb p : ℚ) : ℚ := (lb - p) / lb * 100

/-- The stock-engine position state after the add-on-dip check of one bar
(the state the profit check reads): the add applied when the drawdown
reaches the drop threshold, the incoming state otherwise. -/
def stockAfterAdd (addInr dropPct : ℚ) (s : StockState) (p : ℚ) : StockState :=
  if dropPct ≤ drawdown (s.lastBuy.getD 0) p then
    { s with
        shares := s.shares + addInr / p,
        cost := s.cost + addInr,
        lastBuy := some p }
  else s

/-- The futures-engine position state after the add-on-dip check of one
bar. -/
def futAfterAdd (dropPct lotValue : ℚ) (s : FutState) (p : ℚ) : FutState :=
  if dropPct ≤ drawdown (s.lastBuy.getD 0) p then
    { s with
        lots := s.lots + 1,
        cost := s.cost + p * lotValue,
        lastBuy := some p }
  else s

/-! ## State invariants -/

/-- The position-state invariant of the stock engine (spec §3), strengthened
with positivity of the cost basis of an open position. -/
def StockOk (s : StockState) : Prop :=
  (s.inPos = true ↔ 0 < s.shares) ∧
  (s.inPos = false → s.shares = 0 ∧ s.cost = 0 ∧ s.lastBuy = none) ∧
  (s.inPos = true → 0 < s.cost ∧ s.lastBuy.isSome = true)

/-- The position-state invariant of the futures engine. -/
def FutOk (s : FutState) : Prop :=
  (s.inPos = true ↔ 0 < s.lots) ∧
  (s.inPos = false → s.lots = 0 ∧ s.cost = 0 ∧ s.lastBuy = none) ∧
  (s.inPos = true → 0 < s.cost ∧ s.lastBuy.isSome = true)

lemma stockOk_init : StockOk initStock := by
  refine ⟨?_, ?_, ?_⟩ <;> simp [initStock, StockOk]

lemma futOk_init : FutOk initFut := by
  refine ⟨?_, ?_, ?_⟩ <;> simp [initFut, FutOk]


lemma stockStep_ok {A B : ℚ} (C D : ℚ) {s : StockState} (d : ℕ) {p : ℚ}
    (hA : 0 < A) (hB : 0 < B) (hp : 0 < p) (h : StockOk s) :
    StockOk (stockStep A B C D s d p).1 := by
  obtain ⟨rz, c, sh, lb, ip⟩ := s
  cases ip with
  | false =>
    simp only [stockStep]
    norm_num [StockOk]
    exact ⟨div_pos hA hp, hA⟩
  | true =>
    obtain ⟨h1, h2, h3⟩ := h
    simp only [StockOk] at *
    have hsh : 0 < sh := h1.mp trivial
    have hc : 0 < c := (h3 trivial).1
    simp only [stockStep]
    norm_num
    split_ifs with ha hpos hsell hpos
    · simp
    · refine ⟨by simpa using hpos, by simp, ?_⟩
      simp only [StockState.mk.injEq]
      refine fun _ => ⟨add_pos hc hB, by simp⟩
    · exact absurd (by simpa using add_pos hsh (div_pos hB hp)) (by simpa using hpos)
    · simp
    · exact ⟨by simpa using hsh, by simp, fun _ => ⟨hc, (h3 trivial).2⟩⟩


lemma stockBar_ok {A B : ℚ} (C D : ℚ) {s : StockState}
    (bar : ℕ × Option ℚ) (hA : 0 < A) (hB : 0 < B) (h : StockOk s) :
    StockOk (stockBar A B C D s bar).1 := by
  unfold stockBar
  match hb : bar.2 with
  | none => exact h
  | some p =>
    by_cases hp : p ≤ 0
    · simpa [hp] using h
    · simpa [hp] using stockStep_ok C D bar.1 hA hB (lt_of_not_le hp) h

lemma stockRun_ok {A B : ℚ} (C D : ℚ) {s : StockState}
    (bars : List (ℕ × Option ℚ)) (hA : 0 < A) (hB : 0 < B) (h : StockOk s) :
    StockOk (stockRun A B C D s bars).1 := by
  induction bars generalizing s with
  | nil => exact h
  | cons b rest ih => exact ih (stockBar_ok C D b hA hB h)

lemma futStep_ok {I : ℤ} (C D : ℚ) {V : ℚ} {s : FutState} (d : ℕ) {p : ℚ}
    (hI : 1 ≤ I) (hV : 0 < V) (hp : 0 < p) (h : FutOk s) :
    FutOk (futStep I C D V s d p).1 := by
  obtain ⟨rz, c, lots, lb, ip⟩ := s
  have hIq : (0 : ℚ) < (I : ℚ) := by exact_mod_cast lt_of_lt_of_le zero_lt_one hI
  cases ip with
  | false =>
    simp only [futStep]
    norm_num [FutOk]
    exact ⟨lt_of_lt_of_le zero_lt_one hI, by positivity⟩
  | true =>
    obtain ⟨h1, h2, h3⟩ := h
    simp only [FutOk] at *
    have hlots : 0 < lots := h1.mp trivial
    have hc : 0 < c := (h3 trivial).1
    simp only [futStep]
    norm_num
    split_ifs with ha hpos hsell hpos
    · simp
    · refine ⟨by simpa using hpos, by simp, ?_⟩
      refine fun _ => ⟨add_pos hc (by positivity), by simp⟩
    · exact absurd (by simpa using lt_trans hlots (lt_add_one lots)) (by simpa using hpos)
    · simp
    · exact ⟨by simpa using hlots, by simp, fun _ => ⟨hc, (h3 trivial).2⟩⟩

lemma futBar_ok {I : ℤ} (C D : ℚ) {V : ℚ} {s : FutState}
    (bar : ℕ × Option ℚ) (hI : 1 ≤ I) (hV : 0 < V) (h : FutOk s) :
    FutOk (futBar I C D V s bar).1 := by
  unfold futBar
  match hb : bar.2 with
  | none => exact h
  | some p =>
    by_cases hp : p ≤ 0
    · simpa [hp] using h
    · simpa [hp] using futStep_ok C D bar.1 hI hV (lt_of_not_le hp) h

lemma futRun_ok {I : ℤ} (C D : ℚ) {V : ℚ} {s : FutState}
    (bars : List (ℕ × Option ℚ)) (hI : 1 ≤ I) (hV : 0 < V) (h : FutOk s) :
    FutOk (futRun I C D V s bars).1 := by
  induction bars generalizing s with
  | nil => exact h
  | cons b rest ih => exact ih (futBar_ok C D b hI hV h)


/-! ## Run decomposition lemmas -/

lemma stockRun_append (A B C D : ℚ) (s : StockState)
    (xs ys : List (ℕ × Option ℚ)) :
    stockRun A B C D s (xs ++ ys) =
      ((stockRun A B C D (stockRun A B C D s xs).1 ys).1,
       (stockRun A B C D s xs).2.1 ++
         (stockRun A B C D (stockRun A B C D s xs).1 ys).2.1,
       (stockRun A B C D s xs).2.2 ++
         (stockRun A B C D (stockRun A B C D s xs).1 ys).2.2) := by
  induction xs generalizing s with
  | nil => simp [stockRun]
  | cons b rest ih => simp [stockRun, ih, List.append_assoc]

lemma futRun_append (I : ℤ) (C D V : ℚ) (s : FutState)
    (xs ys : List (ℕ × Option ℚ)) :
    futRun I C D V s (xs ++ ys) =
      ((futRun I C D V (futRun I C D V s xs).1 ys).1,
       (futRun I C D V s xs).2.1 ++
         (futRun I C D V (futRun I C D V s xs).1 ys).2.1,
       (futRun I C D V s xs).2.2 ++
         (futRun I C D V (futRun I C D V s xs).1 ys).2.2) := by
  induction xs generalizing s with
  | nil => simp [futRun]
  | cons b rest ih => simp [futRun, ih, List.append_assoc]

lemma stockRun_take_succ (A B C D : ℚ) (s : StockState)
    (bars : List (ℕ × Option ℚ)) (k : ℕ) (b : ℕ × Option ℚ)
    (hb : bars[k]? = some b) :
    stockRun A B C D s (bars.take (k + 1)) =
      ((stockBar A B C D (stockRun A B C D s (bars.take k)).1 b).1,
       (stockRun A B C D s (bars.take k)).2.1 ++
         (stockBar A B C D (stockRun A B C D s (bars.take k)).1 b).2.1,
       (stockRun A B C D s (bars.take k)).2.2 ++
         (stockBar A B C D (stockRun A B C D s (bars.take k)).1 b).2.2) := by
  have ht : bars.take (k + 1) = bars.take k ++ [b] := by
    rw [List.take_succ, hb]
    rfl
  rw [ht, stockRun_append]
  simp [stockRun]

lemma futRun_take_succ (I : ℤ) (C D V : ℚ) (s : FutState)
    (bars : List (ℕ × Option ℚ)) (k : ℕ) (b : ℕ × Option ℚ)
    (hb : bars[k]? = some b) :
    futRun I C D V s (bars.take (k + 1)) =
      ((futBar I C D V (futRun I C D V s (bars.take k)).1 b).1,
       (futRun I C D V s (bars.take k)).2.1 ++
         (futBar I C D V (futRun I C D V s (bars.take k)).1 b).2.1,
       (futRun I C D V s (bars.take k)).2.2 ++
         (futBar I C D V (futRun I C D V s (bars.take k)).1 b).2.2) := by
  have ht : bars.take (k + 1) = bars.take k ++ [b] := by
    rw [List.take_succ, hb]
    rfl
  rw [ht, futRun_append]
  simp [futRun]

/-- A run over bars that are all invalid (missing or non-positive price)
does nothing at all: no state change, no trades, no equity values. -/
lemma stockRun_all_invalid (A B C D : ℚ) (s : StockState)
    (bars : List (ℕ × Option ℚ)) (h : ∀ b ∈ bars, b.2.getD 0 ≤ 0) :
    stockRun A B C D s bars = (s, [], []) := by
  induction bars generalizing s with
  | nil => rfl
  | cons b rest ih =>
    have hrest : ∀ x ∈ rest, x.2.getD 0 ≤ 0 :=
      fun x hx => h x (List.mem_cons_of_mem _ hx)
    obtain ⟨d, op⟩ := b
    match op with
    | none => simp [stockRun, stockBar, ih _ hrest]
    | some p =>
      have hp : p ≤ 0 := by simpa using h _ (List.mem_cons_self _ _)
      simp [stockRun, stockBar, hp, ih _ hrest]

/-- A run over bars that are all valid yields exactly one equity value per
input bar. -/
lemma stockRun_equity_length (A B C D : ℚ) (s : StockState)
    (bars : List (ℕ × Option ℚ)) (h : ∀ b ∈ bars, 0 < b.2.getD 0) :
    (stockRun A B C D s bars).2.2.length = bars.length := by
  induction bars generalizing s with
  | nil => rfl
  | cons b rest ih =>
    have hrest : ∀ x ∈ rest, 0 < x.2.getD 0 :=
      fun x hx => h x (List.mem_cons_of_mem _ hx)
    have hb := h b (List.mem_cons_self _ _)
    obtain ⟨d, op⟩ := b
    match op with
    | none => simp at hb
    | some p =>
      have hp : ¬ p ≤ 0 := not_le.mpr (by simpa using hb)
      simp [stockRun, stockBar, hp, ih _ hrest]

lemma futRun_equity_length (I : ℤ) (C D V : ℚ) (s : FutState)
    (bars : List (ℕ × Option ℚ)) (h : ∀ b ∈ bars, 0 < b.2.getD 0) :
    (futRun I C D V s bars).2.2.length = bars.length := by
  induction bars generalizing s with
  | nil => rfl
  | cons b rest ih =>
    have hrest : ∀ x ∈ rest, 0 < x.2.getD 0 :=
      fun x hx => h x (List.mem_cons_of_mem _ hx)
    have hb := h b (List.mem_cons_self _ _)
    obtain ⟨d, op⟩ := b
    match op with
    | none => simp at hb
    | some p =>
      have hp : ¬ p ≤ 0 := not_le.mpr (by simpa using hb)
      simp [futRun, futBar, hp, ih _ hrest]


/-! ## Realized-P/L step lemmas -/

lemma stockStep_realized (A C : ℚ) {B D : ℚ} {s : StockState} (d : ℕ) (p : ℚ)
    (hB : 0 < B) (hD : 0 < D) (hok : StockOk s) :
    s.realized ≤ (stockStep A B C D s d p).1.realized ∧
    (∀ t ∈ (stockStep A B C D s d p).2, t.action = Action.sellAll →
      s.realized < (stockStep A B C D s d p).1.realized ∧
      ∃ q : ℚ, 0 < q ∧ t.pnl = some (rq2 q) ∧
        (stockStep A B C D s d p).1.realized = s.realized + q) := by
  obtain ⟨rz, c, sh, lb, ip⟩ := s
  cases ip with
  | false =>
    refine ⟨by simp [stockStep], fun t ht hact => ?_⟩
    simp [stockStep] at ht
    subst ht
    simp at hact
  | true =>
    obtain ⟨h1, h2, h3⟩ := hok
    have hsh : 0 < sh := h1.mp rfl
    have hc : 0 < c := (h3 rfl).1
    simp only [stockStep]
    norm_num
    split_ifs with ha hpos hsell hsell2
    · -- add fired, sell fired
      norm_num at hpos hsell
      have hkey : (c + B) * (1 + D / 100) ≤ p * (sh + B / p) := by
        rw [div_mul_eq_mul_div, div_le_iff₀ hpos] at hsell
        linarith
      have hq : 0 < p * (sh + B / p) - (c + B) := by
        nlinarith [mul_pos (add_pos hc hB) hD]
      refine ⟨by simpa using by linarith, fun t ht hact => ?_⟩
      simp at ht
      rcases ht with rfl | rfl
      · simp at hact
      · exact ⟨by simpa using by linarith,
          p * (sh + B / p) - (c + B), hq, rfl, by simp⟩
    · -- add fired, no sell
      refine ⟨by simp, fun t ht hact => ?_⟩
      simp at ht
      subst ht
      simp at hact
    · -- add fired, post-add shares not positive (degenerate p): no sell
      refine ⟨by simp, fun t ht hact => ?_⟩
      simp at ht
      subst ht
      simp at hact
    · -- no add, sell fired
      norm_num at hsell2
      have hkey : c * (1 + D / 100) ≤ p * sh := by
        rw [div_mul_eq_mul_div, div_le_iff₀ hsh] at hsell2
        linarith
      have hq : 0 < p * sh - c := by
        nlinarith [mul_pos hc hD]
      refine ⟨by simpa using by linarith, fun t ht hact => ?_⟩
      simp at ht
      subst ht
      exact ⟨by simpa using by linarith, p * sh - c, hq, rfl, by simp⟩
    · -- no add, no sell
      exact ⟨by simp, fun t ht hact => by simp at ht⟩

lemma futStep_realized (I : ℤ) (C : ℚ) {D V : ℚ} {s : FutState} (d : ℕ) {p : ℚ}
    (hD : 0 < D) (hV : 0 < V) (hp : 0 < p) (hok : FutOk s) :
    s.realized ≤ (futStep I C D V s d p).1.realized ∧
    (∀ t ∈ (futStep I C D V s d p).2, t.action = Action.sellAll →
      s.realized < (futStep I C D V s d p).1.realized ∧
      ∃ q : ℚ, 0 < q ∧ t.pnl = some (rq2 q) ∧
        (futStep I C D V s d p).1.realized = s.realized + q) := by
  obtain ⟨rz, c, L, lb, ip⟩ := s
  cases ip with
  | false =>
    refine ⟨by simp [futStep], fun t ht hact => ?_⟩
    simp [futStep] at ht
    subst ht
    simp at hact
  | true =>
    obtain ⟨h1, h2, h3⟩ := hok
    have hL : 0 < L := h1.mp rfl
    have hc : 0 < c := (h3 rfl).1
    have hLq : (0 : ℚ) < (L : ℚ) := by exact_mod_cast hL
    simp only [futStep]
    norm_num
    split_ifs with ha hpos hsell hsell2
    · -- add fired, sell fired
      norm_num at hpos hsell
      have hden : (0 : ℚ) < ((L : ℚ) + 1) * V := by positivity
      have hcB : (0 : ℚ) < c + p * V := by positivity
      have hkey : (c + p * V) * (1 + D / 100) ≤ p * (((L : ℚ) + 1) * V) := by
        rw [div_mul_eq_mul_div, div_le_iff₀ hden] at hsell
        linarith
      have hq : 0 < ((L : ℚ) + 1) * p * V - (c + p * V) := by
        nlinarith [mul_pos hcB hD]
      refine ⟨by simpa using by linarith, fun t ht hact => ?_⟩
      simp at ht
      rcases ht with rfl | rfl
      · simp at hact
      · refine ⟨by simpa using by linarith,
          ((L : ℚ) + 1) * p * V - (c + p * V), hq, rfl, ?_⟩
        push_cast
        ring_nf
    · refine ⟨by simp, fun t ht hact => ?_⟩
      simp at ht
      subst ht
      simp at hact
    · refine ⟨by simp, fun t ht hact => ?_⟩
      simp at ht
      subst ht
      simp at hact
    · -- no add, sell fired
      norm_num at hsell2
      have hden : (0 : ℚ) < (L : ℚ) * V := by positivity
      have hkey : c * (1 + D / 100) ≤ p * ((L : ℚ) * V) := by
        rw [div_mul_eq_mul_div, div_le_iff₀ hden] at hsell2
        linarith
      have hq : 0 < (L : ℚ) * p * V - c := by
        nlinarith [mul_pos hc hD]
      refine ⟨by simpa using by linarith, fun t ht hact => ?_⟩
      simp at ht
      subst ht
      exact ⟨by simpa using by linarith, (L : ℚ) * p * V - c, hq, rfl, by simp⟩
    · exact ⟨by simp, fun t ht hact => by simp at ht⟩

lemma stockBar_realized (A C : ℚ) {B D : ℚ} {s : StockState}
    (bar : ℕ × Option ℚ) (hB : 0 < B) (hD : 0 < D) (hok : StockOk s) :
    s.realized ≤ (stockBar A B C D s bar).1.realized ∧
    (∀ t ∈ (stockBar A B C D s bar).2.1, t.action = Action.sellAll →
      s.realized < (stockBar A B C D s bar).1.realized ∧
      ∃ q : ℚ, 0 < q ∧ t.pnl = some (rq2 q) ∧
        (stockBar A B C D s bar).1.realized = s.realized + q) := by
  unfold stockBar
  match hb : bar.2 with
  | none => exact ⟨le_rfl, by simp⟩
  | some p =>
    by_cases hp : p ≤ 0
    · simp only [hp, if_true]
      exact ⟨le_rfl, by simp⟩
    · simpa [hp] using stockStep_realized A C bar.1 p hB hD hok

lemma futBar_realized (I : ℤ) (C : ℚ) {D V : ℚ} {s : FutState}
    (bar : ℕ × Option ℚ) (hD : 0 < D) (hV : 0 < V) (hok : FutOk s) :
    s.realized ≤ (futBar I C D V s bar).1.realized ∧
    (∀ t ∈ (futBar I C D V s bar).2.1, t.action = Action.sellAll →
      s.realized < (futBar I C D V s bar).1.realized ∧
      ∃ q : ℚ, 0 < q ∧ t.pnl = some (rq2 q) ∧
        (futBar I C D V s bar).1.realized = s.realized + q) := by
  unfold futBar
  match hb : bar.2 with
  | none => exact ⟨le_rfl, by simp⟩
  | some p =>
    by_cases hp : p ≤ 0
    · simp only [hp, if_true]
      exact ⟨le_rfl, by simp⟩
    · simpa [hp] using futStep_realized I C bar.1 hD hV (lt_of_not_le hp) hok

/-- Every SELL_ALL record of a stock run carries the rounding of a strictly
positive exact trade P/L. -/
lemma stockRun_sell_records (A C : ℚ) {B D : ℚ}
    (bars : List (ℕ × Option ℚ)) {s : StockState}
    (hA : 0 < A) (hB : 0 < B) (hD : 0 < D) (hok : StockOk s) :
    ∀ t ∈ (stockRun A B C D s bars).2.1, t.action = Action.sellAll →
      ∃ q : ℚ, 0 < q ∧ t.pnl = some (rq2 q) := by
  induction bars generalizing s with
  | nil => simp [stockRun]
  | cons b rest ih =>
    intro t ht hact
    simp only [stockRun] at ht
    rcases List.mem_append.mp ht with h | h
    · obtain ⟨_, q, hq, hpnl, _⟩ := (stockBar_realized A C b hB hD hok).2 t h hact
      exact ⟨q, hq, hpnl⟩
    · exact ih (stockBar_ok C D b hA hB hok) t h hact

lemma futRun_sell_records {I : ℤ} (C : ℚ) {D V : ℚ}
    (bars : List (ℕ × Option ℚ)) {s : FutState}
    (hI : 1 ≤ I) (hD : 0 < D) (hV : 0 < V) (hok : FutOk s) :
    ∀ t ∈ (futRun I C D V s bars).2.1, t.action = Action.sellAll →
      ∃ q : ℚ, 0 < q ∧ t.pnl = some (rq2 q) := by
  induction bars generalizing s with
  | nil => simp [futRun]
  | cons b rest ih =>
    intro t ht hact
    simp only [futRun] at ht
    rcases List.mem_append.mp ht with h | h
    · obtain ⟨_, q, hq, hpnl, _⟩ := (futBar_realized I C b hD hV hok).2 t h hact
      exact ⟨q, hq, hpnl⟩
    · exact ih (futBar_ok C D b hI hV hok) t h hact

/-! ## Claims -/

/-- C1: the claim says a bar with missing or non-positive price causes no
state change but still appends an EquityPoint carrying the prior valuation.
The code does make no state change, but `continue` also skips the equity
append, so no EquityPoint is produced for the skipped bar; the final
`pd.Series(equity, index=prices.index)` then fails on the length mismatch.
Evaluated here at prices `[100, 0]`: the loop produces a single equity
value `[10000]` for the two input bars, and `backtest_stock` raises. -/
theorem C1_invalid_bar_appends_no_equity :
    (∀ A B C D : ℚ, ∀ s : StockState, ∀ d : ℕ,
        stockBar A B C D s (d, some 0) = (s, [], []) ∧
        stockBar A B C D s (d, none) = (s, [], [])) ∧
    (stockRun 10000 10000 2 5 initStock [(0, some 100), (1, some 0)]).2.2
      = [10000] ∧
    backtest_stock [(0, some 100), (1, some 0)] 10000 10000 2 5 =
      Except.error "Length of values does not match length of index" := by
  refine ⟨fun A B C D s d => ⟨by simp [stockBar], rfl⟩, ?_, ?_⟩
  · norm_num [stockRun, stockBar, stockStep, initStock]
  · norm_num [backtest_stock, stockRun, stockBar, stockStep, initStock]

/-- C2, counterexample: the claim says a series containing only invalid
prices yields empty outputs and never raises; on the series `[0]` the code
raises the `pd.Series` length-mismatch `ValueError` instead of returning. -/
theorem C2_all_invalid_raises :
    backtest_stock [(0, some 0)] 10000 10000 2 5 =
      Except.error "Length of values does not match length of index" := by
  norm_num [backtest_stock, stockRun, stockBar, initStock]

/-- C2, amended: an empty price series yields an empty ledger and an empty
equity sequence with no error; a non-empty all-invalid series leaves the
loop state untouched with an empty ledger and empty equity list, but the
run then raises a length-mismatch error when building the equity Series. -/
theorem C2_empty_and_all_invalid :
    (∀ A B C D : ℚ, backtest_stock [] A B C D = Except.ok ([], [])) ∧
    (∀ A B C D : ℚ, ∀ bars : List (ℕ × Option ℚ),
      (∀ b ∈ bars, b.2.getD 0 ≤ 0) →
        stockRun A B C D initStock bars = (initStock, [], []) ∧
        (bars ≠ [] → backtest_stock bars A B C D =
          Except.error "Length of values does not match length of index")) := by
  refine ⟨fun A B C D => rfl, fun A B C D bars h => ?_⟩
  have hrun := stockRun_all_invalid A B C D initStock bars h
  refine ⟨hrun, fun hne => ?_⟩
  have hlen : bars.length ≠ 0 := fun h0 => hne (List.length_eq_zero.mp h0)
  unfold backtest_stock
  rw [hrun]
  exact if_neg fun h0 => hlen h0.symm

/-- C2, witness for the amended theorem at the concrete all-invalid series
`[(0, price 0), (1, missing)]`. -/
theorem C2_empty_and_all_invalid_witness :
    stockRun 1 2 3 4 initStock [(0, some 0), (1, none)] = (initStock, [], []) ∧
    backtest_stock [(0, some 0), (1, none)] 1 2 3 4 =
      Except.error "Length of values does not match length of index" := by
  have h := C2_empty_and_all_invalid.2 1 2 3 4 [(0, some 0), (1, none)]
    (by norm_num)
  exact ⟨h.1, h.2 (by simp)⟩

/-- C3, counterexample: the claim says an invalid configuration
(non-positive amounts, percentages outside (0,100]) is rejected with a
configuration error before the run starts.  With initial amount −1, add
amount −1, drop 0 and profit 101 the engine runs anyway and returns a
ledger containing a BUY_INIT that uses the raw values. -/
theorem C3_invalid_config_runs :
    backtest_stock [(0, some 100)] (-1) (-1) 0 101 =
      Except.ok
        ([{ date := 0, action := Action.buyInit, price := 100,
            shares := -1 / 100, cost := some (-1), pnl := none }],
         [(0, -1)]) := by
  norm_num [backtest_stock, stockRun, stockBar, stockStep, initStock, rq2, rq4, rhe]

/-- C3, amended: the engines perform no configuration validation at all:
for any parameter values whatsoever — valid or not — a run over a series
of valid prices returns successfully, and the opening trade spends exactly
the configured initial amount, unclamped. -/
theorem C3_no_config_validation :
    (∀ A B C D : ℚ, ∀ bars : List (ℕ × Option ℚ),
      (∀ b ∈ bars, 0 < b.2.getD 0) →
        ∃ out, backtest_stock bars A B C D = Except.ok out) ∧
    (∀ I : ℤ, ∀ C D V : ℚ, ∀ bars : List (ℕ × Option ℚ),
      (∀ b ∈ bars, 0 < b.2.getD 0) →
        ∃ out, backtest_futures bars I C D V = Except.ok out) ∧
    (∀ A B C D : ℚ, ∀ d : ℕ, ∀ p : ℚ,
      (stockStep A B C D initStock d p).2 =
        [{ date := d, action := Action.buyInit, price := rq2 p,
           shares := rq4 (A / p), cost := some A, pnl := none }]) := by
  refine ⟨fun A B C D bars h => ?_, fun I C D V bars h => ?_, ?_⟩
  · refine ⟨((stockRun A B C D initStock bars).2.1,
      (bars.map Prod.fst).zip (stockRun A B C D initStock bars).2.2), ?_⟩
    simp only [backtest_stock]
    rw [if_pos (stockRun_equity_length A B C D initStock bars h)]
  · refine ⟨((futRun I C D V initFut bars).2.1,
      (bars.map Prod.fst).zip (futRun I C D V initFut bars).2.2), ?_⟩
    simp only [backtest_futures]
    rw [if_pos (futRun_equity_length I C D V initFut bars h)]
  · intro A B C D d p
    simp [stockStep, initStock]

/-- C3, witness: the amended theorem applied to two concrete invalid
configurations (stock: amounts −1, drop 0, profit 101; futures: −3 lots,
drop 0, profit −7, lot value 0). -/
theorem C3_no_config_validation_witness :
    (∃ out, backtest_stock [(0, some 100)] (-1) (-1) 0 101 = Except.ok out) ∧
    (∃ out, backtest_futures [(0, some 100)] (-3) 0 (-7) 0 = Except.ok out) :=
  ⟨C3_no_config_validation.1 (-1) (-1) 0 101 [(0, some 100)] (by norm_num),
   C3_no_config_validation.2.1 (-3) 0 (-7) 0 [(0, some 100)] (by norm_num)⟩

/-- C5, counterexample: in the spec scenario (prices [100,100,97,97,102],
initial 10000, add 10000, drop 2%, profit 5%) the post-add average entry
price is 1940000/19700 = 19400/197 ≈ 98.4772, not ≈ 98.56 as claimed (off
by more than 0.01), and the final-bar equity is 2009400/97 ≈ 20715.46, not
≈ 20722.68 as claimed (off by more than 1). -/
theorem C5_scenario_figures_off :
    (stockRun 10000 10000 2 5 initStock c5bars).1.cost /
        (stockRun 10000 10000 2 5 initStock c5bars).1.shares = 19400 / 197 ∧
    ¬ |(19400 / 197 : ℚ) - 9856 / 100| ≤ 1 / 100 ∧
    (stockRun 10000 10000 2 5 initStock c5bars).2.2.getLast? =
      some (2009400 / 97) ∧
    ¬ |(2009400 / 97 : ℚ) - 2072268 / 100| ≤ 1 := by
  refine ⟨?_, ?_, ?_, ?_⟩
  · norm_num [stockRun, stockBar, stockStep, initStock, c5bars]
  · rw [abs_of_nonpos (by norm_num)]
    norm_num
  · norm_num [stockRun, stockBar, stockStep, initStock, c5bars]
  · rw [abs_of_nonpos (by norm_num)]
    norm_num

/-- C5, amended: the scenario run opens with BUY_INIT of exactly 100 shares
at 100, adds ≈103.0928 shares at 97 (drawdown 3% ≥ 2%), sells nothing (the
post-add average is 19400/197 ≈ 98.48, its 5% profit target ≈ 103.40
exceeds 102), and ends with equity 2009400/97 ≈ 20715.46, all of it
unrealized (realized P/L stays 0). -/
theorem C5_scenario :
    stockRun 10000 10000 2 5 initStock c5bars =
      ({ realized := 0, cost := 20000, shares := 19700 / 97,
         lastBuy := some 97, inPos := true },
       [{ date := 0, action := Action.buyInit, price := 100, shares := 100,
          cost := some 10000, pnl := none },
        { date := 2, action := Action.buyAdd, price := 97,
          shares := 64433 / 625, cost := some 10000, pnl := none }],
       [10000, 10000, 19700, 19700, 2009400 / 97]) ∧
    (20000 : ℚ) / (19700 / 97) = 19400 / 197 ∧
    ¬ ((19400 / 197 : ℚ) * (1 + 5 / 100) ≤ 102) := by
  refine ⟨?_, by norm_num, by norm_num⟩
  norm_num [stockRun, stockBar, stockStep, initStock, c5bars, rq2, rq4, rhe]


/-- C4: while a position is open, the add-on-dip trigger runs before the
sell-on-profit trigger and the profit check divides the post-add cost basis
by the post-add share count (`stockAfterAdd`), so a bar emits one of [],
[BUY_ADD], [SELL_ALL] or [BUY_ADD, SELL_ALL] — never a sell before an add —
and a single bar can indeed emit both, as the concrete run at the end shows
(both trades carry date 1). -/
theorem C4_add_evaluated_before_sell :
    (∀ A B C D rz c sh lb : ℚ, ∀ d : ℕ, ∀ p : ℚ,
      ((stockStep A B C D ⟨rz, c, sh, some lb, true⟩ d p).2.map Trade.action = [] ∨
       (stockStep A B C D ⟨rz, c, sh, some lb, true⟩ d p).2.map Trade.action = [Action.buyAdd] ∨
       (stockStep A B C D ⟨rz, c, sh, some lb, true⟩ d p).2.map Trade.action = [Action.sellAll] ∨
       (stockStep A B C D ⟨rz, c, sh, some lb, true⟩ d p).2.map Trade.action = [Action.buyAdd, Action.sellAll]) ∧
      (Action.sellAll ∈ (stockStep A B C D ⟨rz, c, sh, some lb, true⟩ d p).2.map Trade.action ↔
        (0 < (stockAfterAdd B C ⟨rz, c, sh, some lb, true⟩ p).shares ∧
         (stockAfterAdd B C ⟨rz, c, sh, some lb, true⟩ p).cost /
             (stockAfterAdd B C ⟨rz, c, sh, some lb, true⟩ p).shares * (1 + D / 100) ≤ p))) ∧
    (∀ I : ℤ, ∀ C D V rz c : ℚ, ∀ L : ℤ, ∀ lb : ℚ, ∀ d : ℕ, ∀ p : ℚ,
      ((futStep I C D V ⟨rz, c, L, some lb, true⟩ d p).2.map FTrade.action = [] ∨
       (futStep I C D V ⟨rz, c, L, some lb, true⟩ d p).2.map FTrade.action = [Action.buyAdd] ∨
       (futStep I C D V ⟨rz, c, L, some lb, true⟩ d p).2.map FTrade.action = [Action.sellAll] ∨
       (futStep I C D V ⟨rz, c, L, some lb, true⟩ d p).2.map FTrade.action = [Action.buyAdd, Action.sellAll]) ∧
      (Action.sellAll ∈ (futStep I C D V ⟨rz, c, L, some lb, true⟩ d p).2.map FTrade.action ↔
        (0 < (futAfterAdd C V ⟨rz, c, L, some lb, true⟩ p).lots ∧
         (futAfterAdd C V ⟨rz, c, L, some lb, true⟩ p).cost /
             (((futAfterAdd C V ⟨rz, c, L, some lb, true⟩ p).lots : ℚ) * V) * (1 + D / 100) ≤ p))) ∧
    (stockRun 10000 10000 2 (-50) initStock [(0, some 100), (1, some 90)]).2.1.map
        (fun t => (t.date, t.action)) =
      [(0, Action.buyInit), (1, Action.buyAdd), (1, Action.sellAll)] := by
  refine ⟨fun A B C D rz c sh lb d p => ?_, fun I C D V rz c L lb d p => ?_, ?_⟩
  · simp only [stockStep, stockAfterAdd, drawdown]
    norm_num
    split_ifs with ha hpos hsell hpos hsell <;> simp_all
  · simp only [futStep, futAfterAdd, drawdown]
    norm_num
    split_ifs with ha hpos hsell hpos hsell <;> simp_all
  · norm_num [stockRun, stockBar, stockStep, initStock]


/-- C8: both trigger comparisons are inclusive (`>=`): for an open position,
a BUY_ADD fires exactly when the drawdown is ≥ the drop threshold and a
SELL_ALL fires exactly when the price is ≥ the post-add average times
(1 + profit/100) (with a held position), so equality triggers both.  The
two concrete runs hit each boundary exactly: at price 98 the drawdown is
exactly 2 = dropPct and the add fires; at price 105 the price is exactly
100·(1+5/100) and the sell fires. -/
theorem C8_thresholds_inclusive :
    (∀ A B C D rz c sh lb : ℚ, ∀ d : ℕ, ∀ p : ℚ,
      (Action.buyAdd ∈ (stockStep A B C D ⟨rz, c, sh, some lb, true⟩ d p).2.map Trade.action ↔
        C ≤ drawdown lb p) ∧
      (Action.sellAll ∈ (stockStep A B C D ⟨rz, c, sh, some lb, true⟩ d p).2.map Trade.action ↔
        (0 < (stockAfterAdd B C ⟨rz, c, sh, some lb, true⟩ p).shares ∧
         (stockAfterAdd B C ⟨rz, c, sh, some lb, true⟩ p).cost /
             (stockAfterAdd B C ⟨rz, c, sh, some lb, true⟩ p).shares * (1 + D / 100) ≤ p))) ∧
    (∀ I : ℤ, ∀ C D V rz c : ℚ, ∀ L : ℤ, ∀ lb : ℚ, ∀ d : ℕ, ∀ p : ℚ,
      (Action.buyAdd ∈ (futStep I C D V ⟨rz, c, L, some lb, true⟩ d p).2.map FTrade.action ↔
        C ≤ drawdown lb p)) ∧
    (drawdown 100 98 = 2 ∧
      (stockRun 10000 10000 2 5 initStock [(0, some 100), (1, some 98)]).2.1.map Trade.action =
        [Action.buyInit, Action.buyAdd]) ∧
    ((105 : ℚ) = 100 * (1 + 5 / 100) ∧
      (stockRun 10000 10000 2 5 initStock [(0, some 100), (1, some 105)]).2.1.map Trade.action =
        [Action.buyInit, Action.sellAll]) := by
  refine ⟨fun A B C D rz c sh lb d p => ?_, fun I C D V rz c L lb d p => ?_,
    ⟨by norm_num [drawdown], ?_⟩, ⟨by norm_num, ?_⟩⟩
  · constructor
    · simp only [stockStep, stockAfterAdd, drawdown]
      norm_num
      split_ifs with ha hpos hsell hpos hsell <;> simp_all
    · simp only [stockStep, stockAfterAdd, drawdown]
      norm_num
      split_ifs with ha hpos hsell hpos hsell <;> simp_all
  · simp only [futStep, futAfterAdd, drawdown]
    norm_num
    split_ifs with ha hpos hsell hpos hsell <;> simp_all
  · norm_num [stockRun, stockBar, stockStep, initStock]
  · norm_num [stockRun, stockBar, stockStep, initStock]


/-- C10: the two engines record a BUY_ADD asymmetrically.  The stock
engine's BUY_ADD record carries the added share quantity `add_inr / price`
(rounded to 4 places) in its size field — not the post-add total, which is
`sh + add_inr / price` — while the futures engine's BUY_ADD record carries
the total lot count after the add, `L + 1`, in its size field (hence ≥ 2
whenever a position of ≥ 1 lot was already held, never the 1 lot added),
with only the one new lot's cost `price·lotValue` in its cost field. -/
theorem C10_buy_add_record_asymmetry :
    (∀ A B C D rz c sh lb : ℚ, ∀ d : ℕ, ∀ p : ℚ, ∀ t : Trade,
      t ∈ (stockStep A B C D ⟨rz, c, sh, some lb, true⟩ d p).2 →
      t.action = Action.buyAdd →
        t.shares = rq4 (B / p) ∧ t.cost = some B ∧
        (stockAfterAdd B C ⟨rz, c, sh, some lb, true⟩ p).shares = sh + B / p) ∧
    (∀ I : ℤ, ∀ C D V rz c : ℚ, ∀ L : ℤ, ∀ lb : ℚ, ∀ d : ℕ, ∀ p : ℚ, ∀ t : FTrade,
      t ∈ (futStep I C D V ⟨rz, c, L, some lb, true⟩ d p).2 →
      t.action = Action.buyAdd →
        t.lots = L + 1 ∧ t.cost = some (rq2 (p * V)) ∧
        (futAfterAdd C V ⟨rz, c, L, some lb, true⟩ p).lots = L + 1 ∧
        (1 ≤ L → 2 ≤ t.lots)) := by
  constructor
  · intro A B C D rz c sh lb d p t ht hact
    simp only [stockStep, stockAfterAdd, drawdown] at ht ⊢
    norm_num at ht ⊢
    split_ifs at ht ⊢ with ha hpos hsell hpos hsell <;> simp_all
    rcases ht with rfl | rfl
    · exact ⟨rfl, rfl⟩
    · exact absurd hact (by simp)
  · intro I C D V rz c L lb d p t ht hact
    simp only [futStep, futAfterAdd, drawdown] at ht ⊢
    norm_num at ht ⊢
    split_ifs at ht ⊢ with ha hpos hsell hpos hsell <;> simp_all
    · rcases ht with rfl | rfl
      · exact ⟨rfl, rfl, fun hL => show (2 : ℤ) ≤ L + 1 by omega⟩
      · exact absurd hact (by simp)
    · omega
    · omega

/-- C10, witness: the stock part applied to the BUY_ADD emitted by a dip
from 100 to 90 on an open position of 100 shares costing 10000. -/
theorem C10_buy_add_record_asymmetry_witness :
    ({ date := 1, action := Action.buyAdd, price := 90, shares := 1111111 / 10000,
       cost := some 10000, pnl := none } : Trade).shares = rq4 ((10000 : ℚ) / 90) ∧
    ({ date := 1, action := Action.buyAdd, price := 90, shares := 1111111 / 10000,
       cost := some 10000, pnl := none } : Trade).cost = some (10000 : ℚ) ∧
    (stockAfterAdd 10000 2 ⟨0, 10000, 100, some 100, true⟩ 90).shares =
      100 + (10000 : ℚ) / 90 :=
  C10_buy_add_record_asymmetry.1 10000 10000 2 5 0 10000 100 100 1 90
    { date := 1, action := Action.buyAdd, price := 90, shares := 1111111 / 10000,
      cost := some 10000, pnl := none }
    (by norm_num [stockStep, drawdown, rq2, rq4, rhe]) rfl


/-- C6: with a valid configuration (positive initial and add amounts for
stocks; at least one initial lot and a positive lot value for futures),
after any number of processed bars the position state satisfies
`inPosition ↔ sizeHeld > 0`, `sizeHeld = 0 → costBasis = 0` and
`lastEntryPrice defined ↔ inPosition`; moreover any bar that emits a
SELL_ALL leaves size 0, cost 0, no last entry price and no open position. -/
theorem C6_state_invariants :
    (∀ A B C D : ℚ, ∀ bars : List (ℕ × Option ℚ), ∀ k : ℕ, 0 < A → 0 < B →
      (((stockRun A B C D initStock (bars.take k)).1.inPos = true ↔
          0 < (stockRun A B C D initStock (bars.take k)).1.shares) ∧
       ((stockRun A B C D initStock (bars.take k)).1.shares = 0 →
          (stockRun A B C D initStock (bars.take k)).1.cost = 0) ∧
       ((stockRun A B C D initStock (bars.take k)).1.lastBuy.isSome = true ↔
          (stockRun A B C D initStock (bars.take k)).1.inPos = true))) ∧
    (∀ I : ℤ, ∀ C D V : ℚ, ∀ bars : List (ℕ × Option ℚ), ∀ k : ℕ, 1 ≤ I → 0 < V →
      (((futRun I C D V initFut (bars.take k)).1.inPos = true ↔
          0 < (futRun I C D V initFut (bars.take k)).1.lots) ∧
       ((futRun I C D V initFut (bars.take k)).1.lots = 0 →
          (futRun I C D V initFut (bars.take k)).1.cost = 0) ∧
       ((futRun I C D V initFut (bars.take k)).1.lastBuy.isSome = true ↔
          (futRun I C D V initFut (bars.take k)).1.inPos = true))) ∧
    (∀ A B C D : ℚ, ∀ s : StockState, ∀ d : ℕ, ∀ p : ℚ,
      Action.sellAll ∈ (stockStep A B C D s d p).2.map Trade.action →
        (stockStep A B C D s d p).1.shares = 0 ∧
        (stockStep A B C D s d p).1.cost = 0 ∧
        (stockStep A B C D s d p).1.lastBuy = none ∧
        (stockStep A B C D s d p).1.inPos = false) ∧
    (∀ I : ℤ, ∀ C D V : ℚ, ∀ s : FutState, ∀ d : ℕ, ∀ p : ℚ,
      Action.sellAll ∈ (futStep I C D V s d p).2.map FTrade.action →
        (futStep I C D V s d p).1.lots = 0 ∧
        (futStep I C D V s d p).1.cost = 0 ∧
        (futStep I C D V s d p).1.lastBuy = none ∧
        (futStep I C D V s d p).1.inPos = false) := by
  refine ⟨fun A B C D bars k hA hB => ?_, fun I C D V bars k hI hV => ?_,
    fun A B C D s d p hmem => ?_, fun I C D V s d p hmem => ?_⟩
  · obtain ⟨h1, h2, h3⟩ := stockRun_ok C D (bars.take k) hA hB stockOk_init
    refine ⟨h1, fun hsh => ?_, ?_, ?_⟩
    · cases hip : (stockRun A B C D initStock (bars.take k)).1.inPos with
      | false => exact (h2 hip).2.1
      | true => exact absurd (h1.mp hip) (by rw [hsh]; exact lt_irrefl 0)
    · intro hs
      cases hip : (stockRun A B C D initStock (bars.take k)).1.inPos with
      | false => rw [(h2 hip).2.2] at hs; exact absurd hs (by simp)
      | true => rfl
    · exact fun hip => (h3 hip).2
  · obtain ⟨h1, h2, h3⟩ := futRun_ok C D (bars.take k) hI hV futOk_init
    refine ⟨h1, fun hsh => ?_, ?_, ?_⟩
    · cases hip : (futRun I C D V initFut (bars.take k)).1.inPos with
      | false => exact (h2 hip).2.1
      | true => exact absurd (h1.mp hip) (by rw [hsh]; exact lt_irrefl 0)
    · intro hs
      cases hip : (futRun I C D V initFut (bars.take k)).1.inPos with
      | false => rw [(h2 hip).2.2] at hs; exact absurd hs (by simp)
      | true => rfl
    · exact fun hip => (h3 hip).2
  · obtain ⟨rz, c, sh, lb, ip⟩ := s
    cases ip with
    | false => simp [stockStep] at hmem
    | true =>
      simp only [stockStep] at hmem ⊢
      norm_num at hmem ⊢
      split_ifs at hmem ⊢ with ha hpos hsell hpos hsell <;> simp_all
  · obtain ⟨rz, c, L, lb, ip⟩ := s
    cases ip with
    | false => simp [futStep] at hmem
    | true =>
      simp only [futStep] at hmem ⊢
      norm_num at hmem ⊢
      split_ifs at hmem ⊢ with ha hpos hsell hpos hsell <;> simp_all

/-- C6, witness: the stock-engine invariant after one bar at price 5 with
unit amounts. -/
theorem C6_state_invariants_witness :
    ((stockRun 1 1 2 5 initStock ([(0, some 5)].take 1)).1.inPos = true ↔
      0 < (stockRun 1 1 2 5 initStock ([(0, some 5)].take 1)).1.shares) ∧
    ((stockRun 1 1 2 5 initStock ([(0, some 5)].take 1)).1.shares = 0 →
      (stockRun 1 1 2 5 initStock ([(0, some 5)].take 1)).1.cost = 0) ∧
    ((stockRun 1 1 2 5 initStock ([(0, some 5)].take 1)).1.lastBuy.isSome = true ↔
      (stockRun 1 1 2 5 initStock ([(0, some 5)].take 1)).1.inPos = true) :=
  C6_state_invariants.1 1 1 2 5 [(0, some 5)] 1 one_pos one_pos


/-- C7: in the futures engine with a positive initial lot count, the lot
count (a Python `int`, embedded as `ℤ`) stays non-negative after every bar;
an add appends a BUY_ADD as the bar's first trade, increments the lot count
by exactly one and adds exactly `price·lotValue` to the cost basis
(`futAfterAdd`); and the profit check compares the price against
`costBasis / (lots·lotValue)` computed from the post-add state (the
pre-add state when no add fired). -/
theorem C7_futures_lot_accounting :
    (∀ I : ℤ, ∀ C D V : ℚ, ∀ bars : List (ℕ × Option ℚ), ∀ k : ℕ, 1 ≤ I → 0 < V →
        0 ≤ (futRun I C D V initFut (bars.take k)).1.lots) ∧
    (∀ I : ℤ, ∀ C D V rz c : ℚ, ∀ L : ℤ, ∀ lb : ℚ, ∀ d : ℕ, ∀ p : ℚ,
      C ≤ drawdown lb p →
        ((futStep I C D V ⟨rz, c, L, some lb, true⟩ d p).2.head? =
           some { date := d, action := Action.buyAdd, price := rq2 p, lots := L + 1,
                  cost := some (rq2 (p * V)), pnl := none } ∧
         (futAfterAdd C V ⟨rz, c, L, some lb, true⟩ p).lots = L + 1 ∧
         (futAfterAdd C V ⟨rz, c, L, some lb, true⟩ p).cost = c + p * V ∧
         (Action.sellAll ∈ (futStep I C D V ⟨rz, c, L, some lb, true⟩ d p).2.map FTrade.action ↔
           (0 < L + 1 ∧ (c + p * V) / (((L + 1 : ℤ) : ℚ) * V) * (1 + D / 100) ≤ p)))) ∧
    (∀ I : ℤ, ∀ C D V rz c : ℚ, ∀ L : ℤ, ∀ lb : ℚ, ∀ d : ℕ, ∀ p : ℚ,
      ¬ C ≤ drawdown lb p →
        (Action.sellAll ∈ (futStep I C D V ⟨rz, c, L, some lb, true⟩ d p).2.map FTrade.action ↔
          (0 < L ∧ c / ((L : ℚ) * V) * (1 + D / 100) ≤ p))) := by
  refine ⟨fun I C D V bars k hI hV => ?_, fun I C D V rz c L lb d p ha => ?_,
    fun I C D V rz c L lb d p ha => ?_⟩
  · obtain ⟨h1, h2, _⟩ := futRun_ok C D (bars.take k) hI hV futOk_init
    cases hip : (futRun I C D V initFut (bars.take k)).1.inPos with
    | false => exact le_of_eq (h2 hip).1.symm
    | true => exact le_of_lt (h1.mp hip)
  · simp only [futStep, futAfterAdd, drawdown] at ha ⊢
    norm_num [ha]
    split_ifs with hpos hsell <;> simp_all
  · simp only [futStep, futAfterAdd, drawdown] at ha ⊢
    norm_num [ha]
    split_ifs with hpos hsell <;> simp_all

/-- C7, witness: one lot bought at 100 and a 5% dip to 95 (≥ the 2%
threshold): the add takes the position to 2 lots, adds 95·1 to the cost
basis, and the profit check uses (100+95)/(2·1). -/
theorem C7_futures_lot_accounting_witness :
    (futStep 1 2 5 1 ⟨0, 100, 1, some 100, true⟩ 1 95).2.head? =
      some { date := 1, action := Action.buyAdd, price := rq2 95, lots := 1 + 1,
             cost := some (rq2 (95 * 1)), pnl := none } ∧
    (futAfterAdd 2 1 ⟨0, 100, 1, some 100, true⟩ 95).lots = 1 + 1 ∧
    (futAfterAdd 2 1 ⟨0, 100, 1, some 100, true⟩ 95).cost = 100 + 95 * 1 ∧
    (Action.sellAll ∈ (futStep 1 2 5 1 ⟨0, 100, 1, some 100, true⟩ 1 95).2.map FTrade.action ↔
      ((0 : ℤ) < 1 + 1 ∧ (100 + 95 * 1) / (((1 + 1 : ℤ) : ℚ) * 1) * (1 + 5 / 100) ≤ 95)) :=
  C7_futures_lot_accounting.2.1 1 2 5 1 0 100 1 100 1 95 (by norm_num [drawdown])


/-- C9: with a valid configuration and a positive profit percentage, every
SELL_ALL trade's realized P/L is strictly positive (the record's pnl field
is the 2-place rounding of that positive amount), the running realized P/L
never decreases from one bar to the next, and it strictly increases across
every bar that emits a SELL_ALL — the engine never realizes a loss; a
losing position is simply held. -/
theorem C9_sells_never_realize_loss :
    (∀ A B C D : ℚ, ∀ bars : List (ℕ × Option ℚ), 0 < A → 0 < B → 0 < D →
      (∀ t ∈ (stockRun A B C D initStock bars).2.1, t.action = Action.sellAll →
        ∃ q : ℚ, 0 < q ∧ t.pnl = some (rq2 q)) ∧
      (∀ k : ℕ, (stockRun A B C D initStock (bars.take k)).1.realized ≤
        (stockRun A B C D initStock (bars.take (k + 1))).1.realized) ∧
      (∀ k : ℕ, ∀ b : ℕ × Option ℚ, bars[k]? = some b →
        Action.sellAll ∈
          (stockBar A B C D (stockRun A B C D initStock (bars.take k)).1 b).2.1.map
            Trade.action →
        (stockRun A B C D initStock (bars.take k)).1.realized <
          (stockRun A B C D initStock (bars.take (k + 1))).1.realized)) ∧
    (∀ I : ℤ, ∀ C D V : ℚ, ∀ bars : List (ℕ × Option ℚ), 1 ≤ I → 0 < D → 0 < V →
      (∀ t ∈ (futRun I C D V initFut bars).2.1, t.action = Action.sellAll →
        ∃ q : ℚ, 0 < q ∧ t.pnl = some (rq2 q)) ∧
      (∀ k : ℕ, (futRun I C D V initFut (bars.take k)).1.realized ≤
        (futRun I C D V initFut (bars.take (k + 1))).1.realized) ∧
      (∀ k : ℕ, ∀ b : ℕ × Option ℚ, bars[k]? = some b →
        Action.sellAll ∈
          (futBar I C D V (futRun I C D V initFut (bars.take k)).1 b).2.1.map
            FTrade.action →
        (futRun I C D V initFut (bars.take k)).1.realized <
          (futRun I C D V initFut (bars.take (k + 1))).1.realized)) := by
  constructor
  · intro A B C D bars hA hB hD
    refine ⟨stockRun_sell_records A C bars hA hB hD stockOk_init, fun k => ?_,
      fun k b hb hmem => ?_⟩
    · cases hbk : bars[k]? with
      | none =>
        have hlen : bars.length ≤ k := List.getElem?_eq_none_iff.mp hbk
        rw [List.take_of_length_le hlen,
          List.take_of_length_le (le_trans hlen (Nat.le_succ k))]
      | some b =>
        rw [stockRun_take_succ A B C D initStock bars k b hbk]
        exact (stockBar_realized A C b hB hD
          (stockRun_ok C D (bars.take k) hA hB stockOk_init)).1
    · rw [stockRun_take_succ A B C D initStock bars k b hb]
      obtain ⟨t, ht, hact⟩ := List.mem_map.mp hmem
      exact ((stockBar_realized A C b hB hD
        (stockRun_ok C D (bars.take k) hA hB stockOk_init)).2 t ht hact).1
  · intro I C D V bars hI hD hV
    refine ⟨futRun_sell_records C bars hI hD hV futOk_init, fun k => ?_,
      fun k b hb hmem => ?_⟩
    · cases hbk : bars[k]? with
      | none =>
        have hlen : bars.length ≤ k := List.getElem?_eq_none_iff.mp hbk
        rw [List.take_of_length_le hlen,
          List.take_of_length_le (le_trans hlen (Nat.le_succ k))]
      | some b =>
        rw [futRun_take_succ I C D V initFut bars k b hbk]
        exact (futBar_realized I C b hD hV
          (futRun_ok C D (bars.take k) hI hV futOk_init)).1
    · rw [futRun_take_succ I C D V initFut bars k b hb]
      obtain ⟨t, ht, hact⟩ := List.mem_map.mp hmem
      exact ((futBar_realized I C b hD hV
        (futRun_ok C D (bars.take k) hI hV futOk_init)).2 t ht hact).1

/-- C9, witness: a stock run that opens at 100 and sells at 105 (profit 5%
reached exactly): its single SELL_ALL record carries a positive P/L. -/
theorem C9_sells_never_realize_loss_witness :
    ∀ t ∈ (stockRun 10000 10000 2 5 initStock
        [(0, some 100), (1, some 105)]).2.1, t.action = Action.sellAll →
      ∃ q : ℚ, 0 < q ∧ t.pnl = some (rq2 q) :=
  (C9_sells_never_realize_loss.1 10000 10000 2 5
    [(0, some 100), (1, some 105)] (by norm_num) (by norm_num) (by norm_num)).1

end Backtester

